import Mathlib

/-!
Verification development for the quizcraft question-extraction pipeline.

The Python sources are shallowly embedded here:
* text is modelled as `List Char` (`PStr`); Python `str.strip`, `str.split("\n")`,
  `str.isupper`, `str.endswith` are re-implemented character by character,
  restricted to the ASCII inputs the pipeline handles;
* the concrete regular expressions of `quizcraft/questions/extractor.py` are
  translated into equivalent hand-rolled matchers (each matcher documents the
  regex it implements, including greediness and backtracking order);
* the SQLite tables of `quizcraft/storage/cache.py` and
  `quizcraft/questions/storage.py` are modelled as lists of rows, with the
  statements (`INSERT OR REPLACE`, `DELETE ... ORDER BY timestamp`, transactions)
  given their SQLite semantics over that list.
-/

set_option maxRecDepth 4000

abbrev PStr := List Char

/-- Python whitespace for `str.strip` / regex `\s` (ASCII range). -/
def isSpaceP (c : Char) : Bool :=
  c = ' ' || c = '\t' || c = '\n' || c = '\r' || c = '\x0b' || c = '\x0c'

/-- Regex `\w` (ASCII): letters, digits, underscore. -/
def isWordP (c : Char) : Bool := c.isAlphanum || c = '_'

/-- Python `str.strip()`: drop leading and trailing whitespace. -/
def stripP (s : PStr) : PStr :=
  ((s.dropWhile isSpaceP).reverse.dropWhile isSpaceP).reverse

/-- Python `str.split("\n")`: split on every newline, keeping empty pieces. -/
def splitLinesP : PStr → List PStr
  | [] => [[]]
  | c :: rest =>
    if c = '\n' then [] :: splitLinesP rest
    else
      match splitLinesP rest with
      | [] => [[c]]
      | l :: ls => (c :: l) :: ls

/-- Python `str.endswith(c)` for a single character: the last character is `c`. -/
def endsWithCh (s : PStr) (c : Char) : Bool := s.reverse.head? = some c

/-- Python `str.isupper()` on ASCII text: at least one cased (alphabetic)
character and no lowercase character. -/
def isupperP (s : PStr) : Bool := s.any (·.isAlpha) && !(s.any (·.isLower))

/-- `_classify_content` from `quizcraft/pdf/extractor.py` (lines 147-175).
The heading test reproduces Python's operator precedence:
`len(text) < 100 and text.endswith(":") or text.isupper()` parses as
`(len < 100 and endswith ":") or isupper`. -/
def classify_content (text : PStr) : PStr :=
  let t := stripP text
  if t.isEmpty then "empty".data
  else if (decide (t.length < 100) && endsWithCh t ':') || isupperP t then "heading".data
  else if t.contains '?' then "potential_question".data
  else if t.head? = some '•' || t.head? = some '-' || t.head? = some '*' then "bullet_point".data
  else "paragraph".data

/-- The classifier exactly as claim C2 words it: `heading` when the text is
shorter than the configured length AND (ends with `:` or is fully upper-case).
Written from the claim, to be compared with `classify_content`. -/
def classify_content_claim (text : PStr) : PStr :=
  let t := stripP text
  if t.isEmpty then "empty".data
  else if decide (t.length < 100) && (endsWithCh t ':' || isupperP t) then "heading".data
  else if t.contains '?' then "potential_question".data
  else if t.head? = some '•' || t.head? = some '-' || t.head? = some '*' then "bullet_point".data
  else "paragraph".data

/-- The amended claim: `heading` exactly when (the text is short AND ends with
`:`) OR it is fully upper-case; the other rules and their priority unchanged.
Written from the amended spec sentence. -/
def classify_content_amended (text : PStr) : PStr :=
  let t := stripP text
  if t.isEmpty then "empty".data
  else if (decide (t.length < 100) && endsWithCh t ':') || isupperP t then "heading".data
  else if t.contains '?' then "potential_question".data
  else if t.head? = some '•' || t.head? = some '-' || t.head? = some '*' then "bullet_point".data
  else "paragraph".data

/-! ## QuestionExtractor (quizcraft/questions/extractor.py)

The extractor's concrete regexes are translated into hand-rolled matchers.
All lines fed to the option patterns come from `str.split("\n")` and hence
contain no newline character.
-/

/-- Tail of the option-line regex: `\s*(.+)$` applied to a newline-free
remainder.  The greedy `\s*` first takes all whitespace; if nothing is left,
it backtracks one character so that `.+` can match it. -/
def matchOptionTail (rest : PStr) : Option PStr :=
  let v := rest.dropWhile isSpaceP
  if v.isEmpty then
    if rest.isEmpty then none else some [rest.getLastD ' ']
  else some v

/-- One option-line regex `^\s*([lo-hi])[\.\)]\s*(.+)$` (the three patterns of
`QuestionExtractor.option_patterns` instantiated with `A-E`, `a-e`, `1-5`),
applied in `re.match` position (anchored at the start). Returns the two capture
groups (key character, raw value). -/
def matchOptionLine (lo hi : Char) (line : PStr) : Option (Char × PStr) :=
  match line.dropWhile isSpaceP with
  | [] => none
  | k :: rest =>
    if lo ≤ k ∧ k ≤ hi then
      match rest with
      | [] => none
      | b :: rest2 =>
        if b = '.' ∨ b = ')' then
          (matchOptionTail rest2).map (fun v => (k, v))
        else none
    else none

/-- Key standardisation in `_extract_options`: `key.upper()`, then numeric keys
`1`-`5` remapped via `chr(64 + int(key))` (`1→A`, `2→B`, ...). -/
def keyOfMatch (k : Char) : Char :=
  let ku := k.toUpper
  if ku.isDigit then Char.ofNat (64 + (ku.toNat - 48)) else ku

/-- The leading scan of `_extract_options`: find the first line containing `?`
and return the lines after it; `none` when no line contains `?`. -/
def dropThroughQuestion : List PStr → Option (List PStr)
  | [] => none
  | l :: ls => if l.contains '?' then some ls else dropThroughQuestion ls

/-- Lines on which `_extract_options` runs the option patterns: everything
after the first `?`-line, or all lines when there is no `?`-line. -/
def optionLines (text : PStr) : List PStr :=
  match dropThroughQuestion (splitLinesP text) with
  | some ls => ls
  | none => splitLinesP text

/-- One pass of `_extract_options`' inner loop: `re.match(pattern, line.strip())`
over all lines for a single option pattern, collecting `(standardised key,
value.strip())` pairs. -/
def matchesForPattern (lo hi : Char) (lines : List PStr) : List (Char × PStr) :=
  lines.filterMap (fun line =>
    (matchOptionLine lo hi (stripP line)).map (fun kv => (keyOfMatch kv.1, stripP kv.2)))

/-- All option matches of `_extract_options`, pattern-major (`A-E`, then `a-e`,
then `1-5`), keys already standardised as in the source. -/
def optionMatches (text : PStr) : List (Char × PStr) :=
  let ls := optionLines text
  matchesForPattern 'A' 'E' ls ++ matchesForPattern 'a' 'e' ls ++ matchesForPattern '1' '5' ls

/-- Python dict assignment `options[key] = value`: update in place if the key
exists (keeping its position), else append. -/
def dictInsert (d : List (PStr × PStr)) (k v : PStr) : List (PStr × PStr) :=
  if d.any (fun p => decide (p.1 = k)) then
    d.map (fun p => if p.1 = k then (k, v) else p)
  else d ++ [(k, v)]

/-- `_extract_options` (extractor.py lines 216-270).  Note that the
`letter_options` filter `not m[0].isdigit()` runs AFTER the numeric keys were
remapped to letters, exactly as in the source. -/
def extract_options (text : PStr) : List (PStr × PStr) :=
  let ms := optionMatches text
  let letter_options := ms.filter (fun m => !(m.1.isDigit))
  let ms := if !letter_options.isEmpty then letter_options else ms
  ms.foldl (fun d m => dictInsert d [m.1] m.2) []

/-- Regex `\b`: a word boundary between the previous character (none at the
start of the text) and the head of the remainder. -/
def wordBoundary (prev : Option Char) (r : PStr) : Bool :=
  let pw := match prev with | none => false | some c => isWordP c
  let nw := match r.head? with | none => false | some c => isWordP c
  pw != nw

/-- `(?:(?:[0-9]+|[A-Z]|[a-z]|[IVX]+)[\.\)])` at the head of `r`: the remainders
after the closing bracket, in regex alternation preference order.  Within
`[0-9]+` and `[IVX]+` only the maximal run can continue (a shorter run leaves a
run character where `[\.\)]` is required), so they need no inner backtracking. -/
def altBracketCands (r : PStr) : List PStr :=
  let bracketNext : PStr → Option PStr := fun s =>
    match s with
    | c :: rest => if c = '.' ∨ c = ')' then some rest else none
    | [] => none
  let digRun := r.takeWhile (·.isDigit)
  let c1 := if digRun.isEmpty then none else bracketNext (r.drop digRun.length)
  let c2 := match r with
    | c :: rest => if 'A' ≤ c ∧ c ≤ 'Z' then bracketNext rest else none
    | [] => none
  let c3 := match r with
    | c :: rest => if 'a' ≤ c ∧ c ≤ 'z' then bracketNext rest else none
    | [] => none
  let ivxRun := r.takeWhile (fun c => c = 'I' ∨ c = 'V' ∨ c = 'X')
  let c4 := if ivxRun.isEmpty then none else bracketNext (r.drop ivxRun.length)
  c1.toList ++ c2.toList ++ c3.toList ++ c4.toList

/-- Capture `(.+\?)` at the head of `r`: `.` excludes newline, so the match
lives in the maximal newline-free run; greedy `.+` backtracks to the LAST `?`
of that run, and needs at least one character before it. -/
def captureQ (r : PStr) : Option PStr :=
  let run := r.takeWhile (fun c => c ≠ '\n')
  match (run.reverse.findIdx? (fun c => c = '?')).map (fun i => run.length - 1 - i) with
  | some j => if 1 ≤ j then some (run.take (j + 1)) else none
  | none => none

/-- `\s+(.+\?)` at the head of `r`: the greedy `\s+` tries the longest
whitespace run first and backtracks down to one character. -/
def wsPlusCapture (r : PStr) : Option PStr :=
  let rec tryK : Nat → Option PStr
    | 0 => none
    | k + 1 =>
      match captureQ (r.drop (k + 1)) with
      | some g => some g
      | none => tryK k
  tryK (r.takeWhile isSpaceP).length

/-- `\s*(.+\?)` at the head of `r` (pattern 2's tail): like `wsPlusCapture` but
the whitespace run may be empty. -/
def wsStarCapture (r : PStr) : Option PStr :=
  let rec tryK : Nat → Option PStr
    | 0 => captureQ r
    | k + 1 =>
      match captureQ (r.drop (k + 1)) with
      | some g => some g
      | none => tryK k
  tryK (r.takeWhile isSpaceP).length

/-- Question pattern 1, `\b(?:(?:[0-9]+|[A-Z]|[a-z]|[IVX]+)[\.\)])\s+(.+\?)`,
attempted at one position (`prev` = preceding character). Returns capture 1. -/
def matchP1At (prev : Option Char) (r : PStr) : Option PStr :=
  if wordBoundary prev r then (altBracketCands r).findSome? wsPlusCapture
  else none

/-- Case-sensitive literal match, returning the remainder. -/
def matchLit : PStr → PStr → Option PStr
  | [], r => some r
  | c :: cs, r =>
    match r with
    | d :: ds => if d = c then matchLit cs ds else none
    | [] => none

/-- Question pattern 2, `\bQuestion\s+(?:[0-9]+|[A-Z])\s*[:\.]\s*(.+\?)`,
attempted at one position.  After the literal, `\s+` must be non-empty; the
number is a maximal digit run or a single capital; `\s*` before `[:\.]` is a
deterministic whitespace skip since `:` and `.` are not whitespace. -/
def matchP2At (prev : Option Char) (r : PStr) : Option PStr :=
  if wordBoundary prev r then
    match matchLit "Question".data r with
    | none => none
    | some r1 =>
      let ws := r1.takeWhile isSpaceP
      if ws.isEmpty then none
      else
        let r2 := r1.drop ws.length
        let digRun := r2.takeWhile (·.isDigit)
        let r3? : Option PStr :=
          if !digRun.isEmpty then some (r2.drop digRun.length)
          else match r2 with
            | c :: rest => if 'A' ≤ c ∧ c ≤ 'Z' then some rest else none
            | [] => none
        match r3? with
        | none => none
        | some r3 =>
          let r4 := r3.drop (r3.takeWhile isSpaceP).length
          match r4 with
          | c :: r5 => if c = ':' ∨ c = '.' then wsStarCapture r5 else none
          | [] => none
  else none

/-- Question pattern 3, `^(.+\?)\s*$` under `re.MULTILINE`, restricted to one
line (no newline in `line`): capture ends at the last `?` whose tail is all
whitespace, with at least one character before the `?`. -/
def matchP3Line (line : PStr) : Option PStr :=
  let js := (List.range line.length).filter (fun j =>
    decide (1 ≤ j) && decide (line.getD j ' ' = '?') && (line.drop (j + 1)).all isSpaceP)
  (js.getLast?).map (fun j => line.take (j + 1))

/-- `re.search` of pattern 1 over the whole text: leftmost position wins. -/
def searchP1 (t : PStr) : Option PStr :=
  let rec go (prev : Option Char) (r : PStr) : Option PStr :=
    match matchP1At prev r with
    | some g => some g
    | none =>
      match r with
      | [] => none
      | c :: rest => go (some c) rest
  go none t

/-- `re.search` of pattern 2 over the whole text. -/
def searchP2 (t : PStr) : Option PStr :=
  let rec go (prev : Option Char) (r : PStr) : Option PStr :=
    match matchP2At prev r with
    | some g => some g
    | none =>
      match r with
      | [] => none
      | c :: rest => go (some c) rest
  go none t

/-- `re.search` of pattern 3 (`re.MULTILINE`): the first line with a match. -/
def searchP3 (t : PStr) : Option PStr :=
  (splitLinesP t).findSome? matchP3Line

/-- The loop of `_extract_question_text` and `_is_question_segment` over
`self.question_patterns`, in order. -/
def question_search (t : PStr) : Option PStr :=
  match searchP1 t with
  | some g => some g
  | none =>
    match searchP2 t with
    | some g => some g
    | none => searchP3 t

/-- The prefix regex of `_extract_question_text`'s fallback,
`^\s*(?:[0-9]+|[A-Z]|[a-z]|[IVX]+)[\.\)]\s+`: length of the match at the start
of `s`, if any (used by `re.sub` with empty replacement; anchored, so at most
one match).  Alternatives are tried in regex order; after the bracket the
`\s+` must be non-empty. -/
def matchPrefixIdLen (s : PStr) : Option Nat :=
  let ws := (s.takeWhile isSpaceP).length
  let r := s.drop ws
  let bracketLen : PStr → Nat → Option Nat := fun rest keyLen =>
    match rest with
    | c :: rest2 =>
      if c = '.' ∨ c = ')' then
        let w := (rest2.takeWhile isSpaceP).length
        if 1 ≤ w then some (ws + keyLen + 1 + w) else none
      else none
    | [] => none
  let digRun := r.takeWhile (·.isDigit)
  let c1 := if digRun.isEmpty then none else bracketLen (r.drop digRun.length) digRun.length
  let c2 := match r with
    | c :: rest => if 'A' ≤ c ∧ c ≤ 'Z' then bracketLen rest 1 else none
    | [] => none
  let c3 := match r with
    | c :: rest => if 'a' ≤ c ∧ c ≤ 'z' then bracketLen rest 1 else none
    | [] => none
  let ivxRun := r.takeWhile (fun c => c = 'I' ∨ c = 'V' ∨ c = 'X')
  let c4 := if ivxRun.isEmpty then none else bracketLen (r.drop ivxRun.length) ivxRun.length
  (((c1 <|> c2) <|> c3) <|> c4)

/-- `_extract_question_text` (extractor.py lines 184-214): first question
pattern to `re.search`, returning the stripped capture; fallback to the first
line containing `?`, truncated after the `?`, with the leading identifier
prefix removed by `re.sub` and the result stripped. -/
def extract_question_text (t : PStr) : Option PStr :=
  match question_search t with
  | some q => some (stripP q)
  | none =>
    (splitLinesP t).findSome? (fun line =>
      match line.findIdx? (fun c => c = '?') with
      | some i =>
        let question_part := stripP (line.take (i + 1))
        let cleaned := match matchPrefixIdLen question_part with
          | some n => question_part.drop n
          | none => question_part
        some (stripP cleaned)
      | none => none)

/-- `_is_question_segment` (extractor.py lines 68-90): a question pattern
matches somewhere, or at least 3 (line, option pattern) pairs match. -/
def is_question_segment (t : PStr) : Bool :=
  (question_search t).isSome ||
    (let cnt := (splitLinesP t).foldl (fun n line =>
        let l := stripP line
        n + (if (matchOptionLine 'A' 'E' l).isSome then 1 else 0)
          + (if (matchOptionLine 'a' 'e' l).isSome then 1 else 0)
          + (if (matchOptionLine '1' '5' l).isSome then 1 else 0)) 0
     decide (3 ≤ cnt))

/-- `_has_question_start` (extractor.py lines 127-144): `re.match` of each
question pattern against the first line of the stripped text. -/
def has_question_start (t : PStr) : Bool :=
  let first_line := (splitLinesP (stripP t)).headD []
  (matchP1At none first_line).isSome || (matchP2At none first_line).isSome ||
    (matchP3Line first_line).isSome

/-- A text segment as consumed by `extract_questions`: `segment["page"]`,
`segment["text"]`, `segment["type"]`. -/
structure Segment where
  page : Int
  text : PStr
  type : PStr
deriving DecidableEq, Repr

/-- `_group_question_segments` (extractor.py lines 92-125): walk the segments,
starting a new group when none is open or the segment has a question start. -/
def groupLoop : List Segment → List Segment → List (List Segment) → List (List Segment)
  | [], cur, acc => if cur.isEmpty then acc else acc ++ [cur]
  | s :: rest, cur, acc =>
    if cur.isEmpty || has_question_start s.text then
      groupLoop rest [s] (if cur.isEmpty then acc else acc ++ [cur])
    else groupLoop rest (cur ++ [s]) acc

def group_question_segments (segs : List Segment) : List (List Segment) :=
  groupLoop segs [] []

/-- Case-insensitive literal match (for the `re.IGNORECASE` answer pattern). -/
def matchLitCI : PStr → PStr → Option PStr
  | [], r => some r
  | c :: cs, r =>
    match r with
    | d :: ds => if d.toLower = c.toLower then matchLitCI cs ds else none
    | [] => none

/-- The character class `[A-Ea-e1-5]` of the answer pattern. -/
def answerClassChar (c : Char) : Bool :=
  ('A' ≤ c && c ≤ 'E') || ('a' ≤ c && c ≤ 'e') || ('1' ≤ c && c ≤ '5')

/-- `(?:Answer|Correct):\s*([A-Ea-e1-5])` with `re.IGNORECASE`, attempted at
one position: `Answer` is preferred over `Correct` by alternation order. -/
def matchAnswerAt (r : PStr) : Option Char :=
  let tail : PStr → Option Char := fun r1 =>
    match r1 with
    | ':' :: r2 =>
      let r3 := r2.drop (r2.takeWhile isSpaceP).length
      match r3 with
      | c :: _ => if answerClassChar c then some c else none
      | [] => none
    | _ => none
  match (matchLitCI "Answer".data r).bind tail with
  | some c => some c
  | none => (matchLitCI "Correct".data r).bind tail

/-- `re.search` of the answer pattern over the whole text. -/
def searchAnswer (t : PStr) : Option Char :=
  let rec go : PStr → Option Char
    | [] => none
    | c :: rest =>
      match matchAnswerAt (c :: rest) with
      | some a => some a
      | none => go rest
  go t

/-- `_extract_correct_answer` (extractor.py lines 272-302): explicit marker if
its key (uppercased, numeric remapped) is among the options, else the first
option key, else `None`. -/
def extract_correct_answer (t : PStr) (opts : List (PStr × PStr)) : Option PStr :=
  let fallback := (opts.head?).map (·.1)
  match searchAnswer t with
  | some c0 =>
    let cu := c0.toUpper
    let c := if cu.isDigit ∧ 1 ≤ cu.toNat - 48 ∧ cu.toNat - 48 ≤ 5 then
        Char.ofNat (64 + (cu.toNat - 48))
      else cu
    if opts.any (fun p => decide (p.1 = [c])) then some [c] else fallback
  | none => fallback

/-- The `Question` model (`quizcraft/questions/models.py`); `options` is the
insertion-ordered dict. -/
structure Question where
  question_text : PStr
  options : List (PStr × PStr)
  correct_answer : Option PStr
  explanation : Option PStr
  source_page : Option Int
  source_text : Option PStr
  difficulty : Option PStr
  category : Option PStr
deriving DecidableEq, Repr

/-- `"\n".join(segment["text"] for segment in group)`. -/
def combinedText (g : List Segment) : PStr :=
  List.intercalate ['\n'] (g.map (·.text))

/-- `_parse_question_group` (extractor.py lines 146-182). `if not question_text`
covers both a missing result and an empty string; groups produced by
`_group_question_segments` are never empty, so the `[]` case is unreachable. -/
def parse_question_group (g : List Segment) : Option Question :=
  match g with
  | [] => none
  | g0 :: _ =>
    let comb := combinedText g
    match extract_question_text comb with
    | none => none
    | some qt =>
      if qt.isEmpty then none
      else
        let opts := extract_options comb
        if opts.isEmpty || decide (opts.length < 2) then none
        else some ⟨qt, opts, extract_correct_answer comb opts, none, some g0.page,
          some comb, none, none⟩

/-- `extract_questions` (extractor.py lines 36-66): filter to potential
questions, group, and parse each group, keeping the successes. -/
def extract_questions (segs : List Segment) : List Question :=
  let pot := segs.filter (fun s =>
    decide (s.type = "potential_question".data) || is_question_segment s.text)
  (group_question_segments pot).filterMap parse_question_group

/-! ## QuestionValidator (quizcraft/questions/validator.py) -/

/-- Python truthiness of an `str` value. -/
def truthyS (s : PStr) : Bool := !s.isEmpty

/-- Python truthiness of an `Optional[str]` value (`None` and `""` are falsy). -/
def truthyO : Option PStr → Bool
  | none => false
  | some s => !s.isEmpty

/-- Decimal rendering of a number, for the f-string error messages. -/
def natStr (n : Nat) : PStr := (Nat.repr n).data

/-- A single-quote character, used inside the answer error message. -/
def sqCh : PStr := [Char.ofNat 39]

/-- The `QuestionValidator` configuration (constructor defaults of
`QuestionValidator.__init__`, lines 13-36). -/
structure ValidatorConfig where
  min_question_length : Nat := 10
  min_options : Nat := 2
  max_options : Nat := 6
deriving DecidableEq, Repr

def defaultConfig : ValidatorConfig := {}

/-- `set("ABCDE"[: max_options])` — the legal option keys. -/
def valid_keys (cfg : ValidatorConfig) : List PStr :=
  (("ABCDE".data).take cfg.max_options).map (fun c => [c])

def qmarkMsg : PStr := "Question text should end with a question mark".data

/-- The required-field errors of `validate_question` (default `required_fields`
is `question_text`, `options`, `correct_answer`; `hasattr` is always true on
the model, so only Python truthiness matters). -/
def errMissing (q : Question) : List PStr :=
  (if truthyS q.question_text then [] else ["Missing required field: question_text".data]) ++
  (if !q.options.isEmpty then [] else ["Missing required field: options".data]) ++
  (if truthyO q.correct_answer then [] else ["Missing required field: correct_answer".data])

/-- The too-short error (guarded, in the source, by the same
`question_text` truthiness gate as the question-mark error). -/
def errShort (cfg : ValidatorConfig) (q : Question) : List PStr :=
  if truthyS q.question_text && decide (q.question_text.length < cfg.min_question_length) then
    ["Question text too short: ".data ++ natStr q.question_text.length ++
      " characters (minimum ".data ++ natStr cfg.min_question_length ++ ")".data]
  else []

/-- The missing-question-mark error. -/
def errQmark (q : Question) : List PStr :=
  if truthyS q.question_text && !(endsWithCh (stripP q.question_text) '?') then [qmarkMsg]
  else []

/-- The option-count errors (guarded by `options` truthiness). -/
def errFew (cfg : ValidatorConfig) (q : Question) : List PStr :=
  if !q.options.isEmpty && decide (q.options.length < cfg.min_options) then
    ["Too few options: ".data ++ natStr q.options.length ++
      " (minimum ".data ++ natStr cfg.min_options ++ ")".data]
  else []

def errMany (cfg : ValidatorConfig) (q : Question) : List PStr :=
  if !q.options.isEmpty && decide (q.options.length > cfg.max_options) then
    ["Too many options: ".data ++ natStr q.options.length ++
      " (maximum ".data ++ natStr cfg.max_options ++ ")".data]
  else []

/-- The illegal-option-key errors, one per offending key in order. -/
def errKeys (cfg : ValidatorConfig) (q : Question) : List PStr :=
  if !q.options.isEmpty then
    (q.options.map (fun kv => kv.1)).filterMap (fun k =>
      if k ∈ valid_keys cfg then none else some ("Invalid option key: ".data ++ k))
  else []

/-- The empty-option-text errors (`if not text or not text.strip()`). -/
def errEmptyTexts (q : Question) : List PStr :=
  if !q.options.isEmpty then
    q.options.filterMap (fun kv =>
      if !truthyS kv.2 || (stripP kv.2).isEmpty then
        some ("Empty text for option ".data ++ kv.1)
      else none)
  else []

/-- The answer-not-in-options error (checked only when both fields are
truthy). -/
def errAnswer (q : Question) : List PStr :=
  if truthyO q.correct_answer && !q.options.isEmpty then
    match q.correct_answer with
    | some ca =>
      if (q.options.map (fun kv => kv.1)).contains ca then []
      else ["Answer ".data ++ sqCh ++ ca ++ sqCh ++ " not in options".data]
    | none => []
  else []

/-- `validate_question` (validator.py lines 38-102): the error list in source
order (each guard of the source distributed over the checks it wraps), and
`len(errors) == 0` as validity flag. -/
def validate_question (cfg : ValidatorConfig) (q : Question) : Bool × List PStr :=
  let errs := errMissing q ++ errShort cfg q ++ errQmark q ++ errFew cfg q ++
    errMany cfg q ++ errKeys cfg q ++ errEmptyTexts q ++ errAnswer q
  (errs.isEmpty, errs)

/-- The body of `fix_common_issues`' option loop: one options-dict insertion
with an uppercased key, plus its fix message. -/
def fixOptStep (acc : List (PStr × PStr) × List PStr) (kv : PStr × PStr) :
    List (PStr × PStr) × List PStr :=
  let nk := kv.1.map Char.toUpper
  (dictInsert acc.1 nk kv.2,
    acc.2 ++ (if nk ≠ kv.1 then
      ["Standardized option key ".data ++ kv.1 ++ " to ".data ++ nk] else []))

/-- `fix_common_issues` (validator.py lines 128-185): copy the question, append
a missing `?` to the stripped text, rebuild the options dict with uppercased
keys, and uppercase the correct answer; record the applied fixes. -/
def fix_common_issues (q : Question) : Question × List PStr :=
  let needQm := truthyS q.question_text && !(endsWithCh (stripP q.question_text) '?')
  let qt := if needQm then stripP q.question_text ++ "?".data else q.question_text
  let fixes1 : List PStr := if needQm then ["Added missing question mark".data] else []
  let optsFixes := if !q.options.isEmpty then q.options.foldl fixOptStep ([], fixes1)
    else (q.options, fixes1)
  let needCa := truthyO q.correct_answer &&
    (match q.correct_answer with
     | some c => decide (c.map Char.toUpper ≠ c)
     | none => false)
  let ca := if needCa then q.correct_answer.map (fun c => c.map Char.toUpper)
    else q.correct_answer
  let fixes3 : List PStr := if needCa then ["Standardized correct answer to uppercase".data] else []
  ({ q with question_text := qt, options := optsFixes.1, correct_answer := ca },
    optsFixes.2 ++ fixes3)

/-! ## ResponseCache (quizcraft/storage/cache.py)

The SQLite table `response_cache` is a list of rows; `hash` is the primary
key.  The MD5 digest is an arbitrary function parameter `md5 : String → String`
(its only property used by the claims is determinism).  The JSON round-trip of
the response payload is the identity on the stored string. -/

structure CacheEntry where
  hash : String
  prompt : String
  response : String
  timestamp : Int
  metadata : String
deriving DecidableEq, Repr

/-- Comparison used by `ORDER BY timestamp ASC`. -/
def tsLe (a b : CacheEntry) : Prop := a.timestamp ≤ b.timestamp

instance : DecidableRel tsLe := fun a b => inferInstanceAs (Decidable (a.timestamp ≤ b.timestamp))

/-- Key order of `json.dumps(params, sort_keys=True)`. -/
def keyLe (a b : String × String) : Prop := a.1 ≤ b.1

instance : DecidableRel keyLe := fun a b => inferInstanceAs (Decidable (a.1 ≤ b.1))

instance : IsTotal (String × String) keyLe := ⟨fun a b => le_total a.1 b.1⟩

instance : IsTrans (String × String) keyLe := ⟨fun _ _ _ h1 h2 => le_trans h1 h2⟩

/-- Strict key order, used to identify the sorted serializations of two
permutations of the same mapping. -/
def keyLt (a b : String × String) : Prop := a.1 < b.1

instance : IsAntisymm (String × String) keyLt :=
  ⟨fun _ _ h1 h2 => absurd (lt_trans h1 h2) (lt_irrefl _)⟩

/-- `json.dumps(params, sort_keys=True)` for a string-valued parameter mapping:
key-sorted `"k": "v"` entries joined by `", "` inside braces. -/
def json_dumps_sorted (params : List (String × String)) : String :=
  let sorted := List.insertionSort keyLe params
  "\x7b" ++ String.intercalate ", "
    (sorted.map (fun kv => "\"" ++ kv.1 ++ "\": \"" ++ kv.2 ++ "\"")) ++ "\x7d"

/-- `_calculate_hash` (cache.py lines 69-87): digest of
`f"{prompt}|{param_str}"`. -/
def calculate_hash (md5 : String → String) (prompt : String)
    (params : List (String × String)) : String :=
  md5 (prompt ++ "|" ++ json_dumps_sorted params)

/-- `INSERT OR REPLACE INTO response_cache`: drop any row with the same
primary key, then insert the new row. -/
def insertOrReplace (rows : List CacheEntry) (e : CacheEntry) : List CacheEntry :=
  rows.filter (fun x => decide (x.hash ≠ e.hash)) ++ [e]

/-- `_prune_cache` (cache.py lines 216-241): when the row count exceeds the
size limit, delete the `count - size_limit` rows whose hashes come first in
`ORDER BY timestamp ASC`. -/
def prune_cache (limit : Nat) (rows : List CacheEntry) : List CacheEntry :=
  if rows.length ≤ limit then rows
  else
    let victims := ((List.insertionSort tsLe rows).take (rows.length - limit)).map (·.hash)
    rows.filter (fun e => decide (e.hash ∉ victims))

/-- `set` (cache.py lines 131-169) with the wall clock passed explicitly. -/
def cache_set (md5 : String → String) (limit : Nat) (now : Int) (prompt : String)
    (params : List (String × String)) (response metadata : String)
    (rows : List CacheEntry) : List CacheEntry :=
  prune_cache limit
    (insertOrReplace rows ⟨calculate_hash md5 prompt params, prompt, response, now, metadata⟩)

/-- `get` (cache.py lines 89-129): select by hash; an entry older than
`age_limit` is deleted and reported as a miss; otherwise its payload is
returned.  Result: (returned payload, table afterwards). -/
def cache_get (md5 : String → String) (ageLimit : Int) (now : Int) (prompt : String)
    (params : List (String × String)) (rows : List CacheEntry) :
    Option String × List CacheEntry :=
  let h := calculate_hash md5 prompt params
  match rows.find? (fun e => decide (e.hash = h)) with
  | none => (none, rows)
  | some e =>
    if now - e.timestamp > ageLimit then (none, rows.filter (fun x => decide (x.hash ≠ h)))
    else (some e.response, rows)

/-- One `set` call of a call sequence. -/
structure SetCall where
  now : Int
  prompt : String
  params : List (String × String)
  response : String
  metadata : String
deriving DecidableEq, Repr

/-- The row a `set` call inserts. -/
def callEntry (md5 : String → String) (c : SetCall) : CacheEntry :=
  ⟨calculate_hash md5 c.prompt c.params, c.prompt, c.response, c.now, c.metadata⟩

/-- A sequence of `set` calls folded over the table. -/
def cache_setAll (md5 : String → String) (limit : Nat) (calls : List SetCall)
    (rows : List CacheEntry) : List CacheEntry :=
  calls.foldl (fun r c => cache_set md5 limit c.now c.prompt c.params c.response c.metadata r) rows

/-! ## QuestionStorage (quizcraft/questions/storage.py)

The `questions` table is a list of `(id, question, source_file)` rows with an
AUTOINCREMENT id counter.  A single `INSERT` may raise (e.g. a field SQLite
cannot bind); that possibility is an oracle `failq : Question → Bool`. -/

structure DBState where
  rows : List (Nat × Question × Option PStr)
  nextId : Nat
deriving DecidableEq, Repr

/-- The insert loop inside the transaction of `store_questions` (storage.py
lines 119-144): each successful insert appends a row, takes `lastrowid`,
and bumps the AUTOINCREMENT counter; a failing insert raises. -/
def insertLoop (failq : Question → Bool) :
    List Question → List (Nat × Question × Option PStr) → Nat → Option PStr → List Nat →
    Except Unit (List (Nat × Question × Option PStr) × Nat × List Nat)
  | [], rows, nid, _, ids => .ok (rows, nid, ids)
  | q :: rest, rows, nid, sf, ids =>
    if failq q then .error ()
    else insertLoop failq rest (rows ++ [(nid, q, sf)]) (nid + 1) sf (ids ++ [nid])

/-- `store_questions` (storage.py lines 103-152): run the inserts inside
`BEGIN TRANSACTION`; commit them all on success, roll the table back and
re-raise on any failure. -/
def store_questions (failq : Question → Bool) (st : DBState) (qs : List Question)
    (sf : Option PStr) : DBState × Except Unit (List Nat) :=
  match insertLoop failq qs st.rows st.nextId sf [] with
  | .ok (rows, nid, ids) => ({ rows := rows, nextId := nid }, .ok ids)
  | .error e => (st, .error e)

/-! ## Claims -/

/-- The end-to-end scenario text of claim C8. -/
def c8Text : PStr :=
  "1. What is Python?\nA) A snake\nB) A programming language\nC) A game\nD) A tool\n\nAnswer: B".data

/-- C8: `extract_questions` on the single `potential_question` segment of
end-to-end scenario 1 returns exactly one Question with
`question_text = "What is Python?"`, options
`A ↦ "A snake", B ↦ "A programming language", C ↦ "A game", D ↦ "A tool"`,
and `correct_answer = "B"`. -/
theorem c8_end_to_end :
    extract_questions [⟨1, c8Text, "potential_question".data⟩] =
      [⟨"What is Python?".data,
        [("A".data, "A snake".data), ("B".data, "A programming language".data),
         ("C".data, "A game".data), ("D".data, "A tool".data)],
        some "B".data, none, some 1, some c8Text, none, none⟩] := by
  decide

/-- C1 (code bug): on a group whose text has two alphabetic option lines and
one stray numeric line, `_extract_options` does NOT discard the numeric match:
the numeric key `1` was already remapped to `A` before the `isdigit` filter
runs, so it survives and overwrites option A with the stray text. -/
theorem c1_numeric_match_not_discarded :
    extract_options "A) Paris\nB) London\n1. stray".data =
      [("A".data, "stray".data), ("B".data, "London".data)] := by
  decide

/-- C2 (counterexample): on 100 upper-case letters the code classifies
`heading` (Python parses the guard as `(len < 100 and ends ":") or isupper`),
while the claim's rules give `paragraph`. -/
theorem c2_counterexample :
    classify_content (List.replicate 100 'A') = "heading".data ∧
    classify_content_claim (List.replicate 100 'A') = "paragraph".data ∧
    classify_content (List.replicate 100 'A') ≠
      classify_content_claim (List.replicate 100 'A') := by
  refine ⟨by decide, by decide, by decide⟩

/-- C2 (amended): the classifier returns `empty` on whitespace-only text, then
`heading` exactly when (the stripped text is shorter than 100 characters and
ends with `:`) OR it is fully upper-case, then `potential_question` on a `?`,
then `bullet_point` on a bullet glyph, else `paragraph`, in that priority
order. -/
theorem c2_classifier_rules (text : PStr) :
    classify_content text = classify_content_amended text := rfl

/-- C4: an entry inserted at time `T` with age limit `L` is returned by `get`
at `T + L - 1`; at `T + L + 1` the `get` is a miss AND deletes the row, so the
expired entry does not survive the access. -/
theorem c4_age_expiry (md5 : String → String) (L : Int) (prompt : String)
    (params : List (String × String)) (rows : List CacheEntry) (e : CacheEntry)
    (hfind : rows.find? (fun x => decide (x.hash = calculate_hash md5 prompt params)) =
      some e) :
    cache_get md5 L (e.timestamp + L - 1) prompt params rows = (some e.response, rows) ∧
    cache_get md5 L (e.timestamp + L + 1) prompt params rows =
      (none, rows.filter (fun x => decide (x.hash ≠ calculate_hash md5 prompt params))) ∧
    (rows.filter (fun x => decide (x.hash ≠ calculate_hash md5 prompt params))).find?
      (fun x => decide (x.hash = calculate_hash md5 prompt params)) = none := by
  refine ⟨?_, ?_, ?_⟩
  · simp only [cache_get, hfind]
    rw [if_neg (by omega)]
  · simp only [cache_get, hfind]
    rw [if_pos (by omega)]
  · rw [List.find?_eq_none]
    intro x hx
    rw [List.mem_filter] at hx
    simpa using hx.2

def c4Entry : CacheEntry := ⟨calculate_hash id "p" [], "p", "r", 5, "m"⟩

theorem c4_age_expiry_witness :
    cache_get id 7 ((5 : Int) + 7 - 1) "p" [] [c4Entry] = (some "r", [c4Entry]) ∧
    cache_get id 7 ((5 : Int) + 7 + 1) "p" [] [c4Entry] =
      (none, [c4Entry].filter (fun x => decide (x.hash ≠ calculate_hash id "p" []))) := by
  have h := c4_age_expiry id 7 "p" [] [c4Entry] c4Entry (by decide)
  exact ⟨h.1, h.2.1⟩

/-- Two parameter mappings holding the same pairs, with unique keys, have the
same key-sorted order. -/
lemma insertionSort_perm_eq (p1 p2 : List (String × String)) (hperm : p1.Perm p2)
    (hnd : p1.Pairwise (fun a b => a.1 ≠ b.1)) :
    List.insertionSort keyLe p1 = List.insertionSort keyLe p2 := by
  have hp : (List.insertionSort keyLe p1).Perm (List.insertionSort keyLe p2) :=
    (List.perm_insertionSort keyLe p1).trans
      (hperm.trans (List.perm_insertionSort keyLe p2).symm)
  have hne1 : (List.insertionSort keyLe p1).Pairwise (fun a b => a.1 ≠ b.1) :=
    ((List.perm_insertionSort keyLe p1).pairwise_iff (fun h => Ne.symm h)).mpr hnd
  have hne2 : (List.insertionSort keyLe p2).Pairwise (fun a b => a.1 ≠ b.1) :=
    (hp.pairwise_iff (fun h => Ne.symm h)).mp hne1
  have hs1 : (List.insertionSort keyLe p1).Sorted keyLe := List.sorted_insertionSort keyLe p1
  have hs2 : (List.insertionSort keyLe p2).Sorted keyLe := List.sorted_insertionSort keyLe p2
  have hlt1 : (List.insertionSort keyLe p1).Pairwise keyLt :=
    (hs1.and hne1).imp (fun h => lt_of_le_of_ne h.1 h.2)
  have hlt2 : (List.insertionSort keyLe p2).Pairwise keyLt :=
    (hs2.and hne2).imp (fun h => lt_of_le_of_ne h.1 h.2)
  exact List.eq_of_perm_of_sorted hp hlt1 hlt2

/-- Helper for C5: a `get` immediately after a `set` into an empty cache, with
an equal digest, returns the stored response. -/
lemma cache_get_after_set_nil (md5 : String → String) (limit : Nat) (now : Int)
    (prompt : String) (params1 params2 : List (String × String)) (resp meta : String)
    (ageL : Int)
    (hh : calculate_hash md5 prompt params1 = calculate_hash md5 prompt params2)
    (hl : 1 ≤ limit) (ha : 0 ≤ ageL) :
    cache_get md5 ageL now prompt params2 (cache_set md5 limit now prompt params1 resp meta []) =
      (some resp, cache_set md5 limit now prompt params1 resp meta []) := by
  have hset : cache_set md5 limit now prompt params1 resp meta [] =
      [⟨calculate_hash md5 prompt params1, prompt, resp, now, meta⟩] := by
    simp only [cache_set, insertOrReplace, List.filter_nil, List.nil_append, prune_cache]
    rw [if_pos (by simpa using hl)]
  rw [hset]
  have hfind :
      [(⟨calculate_hash md5 prompt params1, prompt, resp, now, meta⟩ : CacheEntry)].find?
        (fun x => decide (x.hash = calculate_hash md5 prompt params2)) =
      some ⟨calculate_hash md5 prompt params1, prompt, resp, now, meta⟩ := by
    simp [List.find?, hh]
  simp only [cache_get, hfind]
  rw [if_neg (by omega)]

/-- C5: the derived cache key does not depend on the insertion order of the
parameter mapping, and a `set` followed by a `get` with the parameters
reordered returns the stored response. -/
theorem c5_key_stability (md5 : String → String) (prompt : String)
    (p1 p2 : List (String × String)) (hperm : p1.Perm p2)
    (hnd : p1.Pairwise (fun a b => a.1 ≠ b.1)) :
    calculate_hash md5 prompt p1 = calculate_hash md5 prompt p2 ∧
    ∀ (limit : Nat) (now : Int) (resp meta : String) (ageL : Int),
      1 ≤ limit → 0 ≤ ageL →
      cache_get md5 ageL now prompt p2 (cache_set md5 limit now prompt p1 resp meta []) =
        (some resp, cache_set md5 limit now prompt p1 resp meta []) := by
  have hh : calculate_hash md5 prompt p1 = calculate_hash md5 prompt p2 := by
    unfold calculate_hash json_dumps_sorted
    rw [insertionSort_perm_eq p1 p2 hperm hnd]
  exact ⟨hh, fun limit now resp meta ageL hl ha =>
    cache_get_after_set_nil md5 limit now prompt p1 p2 resp meta ageL hh hl ha⟩

theorem c5_key_stability_witness :
    calculate_hash id "p" [("a", "1"), ("b", "2")] =
      calculate_hash id "p" [("b", "2"), ("a", "1")] ∧
    cache_get id 0 0 "p" [("b", "2"), ("a", "1")]
        (cache_set id 1 0 "p" [("a", "1"), ("b", "2")] "r" "m" []) =
      (some "r", cache_set id 1 0 "p" [("a", "1"), ("b", "2")] "r" "m" []) := by
  have h := c5_key_stability id "p" [("a", "1"), ("b", "2")] [("b", "2"), ("a", "1")]
    (by decide) (by decide)
  exact ⟨h.1, h.2 1 0 "r" "m" 0 (by decide) (by decide)⟩

/-- A successful insert loop appends exactly the questions it was given in
order, and returns one id per question. -/
lemma insertLoop_ok (failq : Question → Bool) :
    ∀ (qs : List Question) (rows : List (Nat × Question × Option PStr)) (nid : Nat)
      (sf : Option PStr) (ids : List Nat) rows2 nid2 ids2,
      insertLoop failq qs rows nid sf ids = .ok (rows2, nid2, ids2) →
      ids2.length = ids.length + qs.length ∧
      rows2.map (fun r => r.2.1) = rows.map (fun r => r.2.1) ++ qs := by
  intro qs
  induction qs with
  | nil =>
    intro rows nid sf ids rows2 nid2 ids2 h
    simp only [insertLoop, Except.ok.injEq, Prod.mk.injEq] at h
    obtain ⟨h1, h2, h3⟩ := h
    subst h1; subst h3
    simp
  | cons q rest ih =>
    intro rows nid sf ids rows2 nid2 ids2 h
    simp only [insertLoop] at h
    by_cases hf : failq q
    · simp [hf] at h
    · rw [if_neg hf] at h
      obtain ⟨hlen, hmap⟩ := ih (rows ++ [(nid, q, sf)]) (nid + 1) sf (ids ++ [nid])
        rows2 nid2 ids2 h
      constructor
      · simp only [List.length_append, List.length_cons, List.length_nil] at hlen ⊢
        omega
      · rw [hmap]; simp

/-- C6: `store_questions` is atomic: a successful batch returns one id per
question and appends exactly the given questions to the table; a failed batch
leaves the state untouched and re-raises. -/
theorem c6_store_questions_atomic (failq : Question → Bool) (st : DBState)
    (qs : List Question) (sf : Option PStr) :
    (∀ ids, (store_questions failq st qs sf).2 = .ok ids →
       ids.length = qs.length ∧
       (store_questions failq st qs sf).1.rows.map (fun r => r.2.1) =
         st.rows.map (fun r => r.2.1) ++ qs) ∧
    (∀ e, (store_questions failq st qs sf).2 = .error e →
       (store_questions failq st qs sf).1 = st) := by
  unfold store_questions
  cases h : insertLoop failq qs st.rows st.nextId sf [] with
  | ok t =>
    obtain ⟨rows2, nid2, ids2⟩ := t
    refine ⟨fun ids hids => ?_, fun e he => by simp at he⟩
    simp only [Except.ok.injEq] at hids
    subst hids
    obtain ⟨hlen, hmap⟩ := insertLoop_ok failq qs st.rows st.nextId sf [] rows2 nid2 ids2 h
    exact ⟨by simpa using hlen, hmap⟩
  | error e =>
    exact ⟨fun ids hids => by simp at hids, fun e' he => rfl⟩

def c6Q : Question :=
  ⟨"Why is the sky blue?".data, [("A".data, "physics".data), ("B".data, "magic".data)],
    some "A".data, none, none, none, none, none⟩

theorem c6_store_questions_witness :
    ([1] : List Nat).length = [c6Q].length ∧
    (store_questions (fun _ => false) ⟨[], 1⟩ [c6Q] none).1.rows.map (fun r => r.2.1) =
      (DBState.mk [] 1).rows.map (fun r => r.2.1) ++ [c6Q] :=
  (c6_store_questions_atomic (fun _ => false) ⟨[], 1⟩ [c6Q] none).1 [1] rfl

/-- C9: extraction is total — the result is exactly the parse of each group,
and a group with missing/empty question text or fewer than 2 options
contributes no Question. -/
theorem c9_extraction_never_fails :
    (∀ g : List Segment,
        (extract_question_text (combinedText g) = none ∨
         extract_question_text (combinedText g) = some [] ∨
         (extract_options (combinedText g)).length < 2) →
        parse_question_group g = none) ∧
    (∀ segs : List Segment,
        extract_questions segs =
          (group_question_segments (segs.filter (fun s =>
            decide (s.type = "potential_question".data) || is_question_segment s.text))).filterMap
            parse_question_group) := by
  constructor
  · intro g hg
    cases g with
    | nil => rfl
    | cons g0 gr =>
      rcases hg with h | h | h
      · simp [parse_question_group, h]
      · simp [parse_question_group, h]
      · cases he : extract_question_text (combinedText (g0 :: gr)) with
        | none => simp [parse_question_group, he]
        | some qt =>
          by_cases hqt : qt.isEmpty
          · simp [parse_question_group, he, hqt]
          · have hcond : ((extract_options (combinedText (g0 :: gr))).isEmpty ||
                decide ((extract_options (combinedText (g0 :: gr))).length < 2)) = true := by
              simp only [Bool.or_eq_true, decide_eq_true_eq]
              exact Or.inr h
            simp [parse_question_group, he, hqt, hcond]
  · intro segs
    rfl

theorem c9_witness :
    (extract_question_text (combinedText [⟨1, "hello there".data, "paragraph".data⟩]) = none ∨
     extract_question_text (combinedText [⟨1, "hello there".data, "paragraph".data⟩]) = some [] ∨
     (extract_options (combinedText [⟨1, "hello there".data, "paragraph".data⟩])).length < 2) ∧
    parse_question_group [⟨1, "hello there".data, "paragraph".data⟩] = none :=
  ⟨Or.inl (by decide),
    c9_extraction_never_fails.1 [⟨1, "hello there".data, "paragraph".data⟩] (Or.inl (by decide))⟩

/-- C10: under the default configuration the legal keys `"ABCDE"[:6]` are just
`{A, B, C, D, E}`, so a question accepted by `validate_question` has at most 5
options and a 6-option question can never validate. -/
theorem c10_max_options_unattainable (q : Question)
    (hnd : q.options.Pairwise (fun a b => a.1 ≠ b.1)) :
    ((validate_question defaultConfig q).1 = true → q.options.length ≤ 5) ∧
    (q.options.length = 6 → (validate_question defaultConfig q).1 = false) := by
  have main : (validate_question defaultConfig q).1 = true → q.options.length ≤ 5 := by
    intro hv
    by_cases hne : q.options.isEmpty
    · rw [List.isEmpty_iff] at hne
      simp [hne]
    · have herr : (validate_question defaultConfig q).2 = [] := by
        have : (validate_question defaultConfig q).2.isEmpty = true := hv
        rwa [List.isEmpty_iff] at this
      have hkeys : ∀ k ∈ q.options.map (fun kv => kv.1), k ∈ valid_keys defaultConfig := by
        intro k hk
        by_contra hbad
        have hmem : ("Invalid option key: ".data ++ k) ∈ (validate_question defaultConfig q).2 := by
          have hk2 : ("Invalid option key: ".data ++ k) ∈ errKeys defaultConfig q := by
            rw [errKeys, if_pos (by simp [hne])]
            rw [List.mem_filterMap]
            exact ⟨k, hk, by rw [if_neg hbad]⟩
          simp only [validate_question, List.mem_append]
          tauto
        rw [herr] at hmem
        simp at hmem
      have hnodup : (q.options.map (fun kv => kv.1)).Nodup :=
        List.pairwise_map.mpr hnd
      have hsub : (q.options.map (fun kv => kv.1)) ⊆ valid_keys defaultConfig := hkeys
      have hle := (List.subperm_of_subset hnodup hsub).length_le
      simpa using hle
  refine ⟨main, fun h6 => ?_⟩
  cases hb : (validate_question defaultConfig q).1 with
  | false => rfl
  | true => exact absurd (main hb) (by omega)

def c10Q : Question :=
  ⟨"What is two plus two?".data, [("A".data, "four".data), ("B".data, "five".data)],
    some "A".data, none, none, none, none, none⟩

theorem c10_witness : c10Q.options.length ≤ 5 :=
  (c10_max_options_unattainable c10Q (by decide)).1 (by decide)

/-- Filtering out the rows whose hashes head the list leaves the rest, given
unique hashes. -/
lemma filter_not_in_take (l : List CacheEntry) :
    ∀ k : Nat, (l.map (fun e => e.hash)).Nodup →
      l.filter (fun e => decide (e.hash ∉ (l.take k).map (fun x => x.hash))) = l.drop k := by
  induction l with
  | nil => intro k _; simp
  | cons x xs ih =>
    intro k hnd
    obtain ⟨hxm, hnd2⟩ : (∀ y ∈ xs, ¬ y.hash = x.hash) ∧ (xs.map (fun e => e.hash)).Nodup := by
      simpa using hnd
    cases k with
    | zero => simp
    | succ k =>
      simp only [List.take_succ_cons, List.map_cons, List.drop_succ_cons]
      rw [List.filter_cons]
      have hx : (decide (x.hash ∉ x.hash :: (xs.take k).map (fun e => e.hash))) = false := by
        simp
      rw [hx]
      simp only [Bool.false_eq_true, if_false]
      have hcg : xs.filter
            (fun e => decide (e.hash ∉ x.hash :: (xs.take k).map (fun y => y.hash))) =
          xs.filter (fun e => decide (e.hash ∉ (xs.take k).map (fun y => y.hash))) := by
        apply List.filter_congr
        intro e he
        have hne : e.hash ≠ x.hash := hxm e he
        simp [List.mem_cons, hne]
      rw [hcg, ih k hnd2]

/-- The pruning invariant: the table is within the size limit, rows are in
strictly increasing timestamp order, and hashes are unique. -/
def GoodStore (limit : Nat) (rows : List CacheEntry) : Prop :=
  rows.length ≤ limit ∧ rows.Pairwise (fun a b => a.timestamp < b.timestamp) ∧
    (rows.map (fun e => e.hash)).Nodup

/-- One `set` on a good store with a fresh key and a newer timestamp: the new
row is appended and, if the limit was already reached, the oldest row (the
head) is evicted; the result is good again. -/
lemma cache_set_good (md5 : String → String) (limit : Nat) (rows : List CacheEntry)
    (c : SetCall) (hg : GoodStore limit rows)
    (hf : ∀ x ∈ rows, x.timestamp < c.now ∧ x.hash ≠ (callEntry md5 c).hash) :
    cache_set md5 limit c.now c.prompt c.params c.response c.metadata rows =
      (rows ++ [callEntry md5 c]).drop ((rows.length + 1) - limit) ∧
    GoodStore limit ((rows ++ [callEntry md5 c]).drop ((rows.length + 1) - limit)) := by
  obtain ⟨hlen, hts, hnd⟩ := hg
  have hins : insertOrReplace rows (callEntry md5 c) = rows ++ [callEntry md5 c] := by
    unfold insertOrReplace
    congr 1
    apply List.filter_eq_self.mpr
    intro x hx
    simpa using (hf x hx).2
  have hts2 : (rows ++ [callEntry md5 c]).Pairwise (fun a b => a.timestamp < b.timestamp) := by
    rw [List.pairwise_append]
    exact ⟨hts, List.pairwise_singleton _ _, fun a ha b hb => by
      rw [List.mem_singleton] at hb
      exact hb ▸ (hf a ha).1⟩
  have hnd2 : ((rows ++ [callEntry md5 c]).map (fun e => e.hash)).Nodup := by
    rw [List.map_append, List.nodup_append]
    refine ⟨hnd, by simp, ?_⟩
    intro a ha hb
    rw [List.map_singleton, List.mem_singleton] at hb
    rw [List.mem_map] at ha
    obtain ⟨x, hx, hxa⟩ := ha
    exact (hf x hx).2 (by rw [hxa, hb])
  have hsetraw : cache_set md5 limit c.now c.prompt c.params c.response c.metadata rows =
      prune_cache limit (rows ++ [callEntry md5 c]) := by
    unfold cache_set
    rw [show (⟨calculate_hash md5 c.prompt c.params, c.prompt, c.response, c.now,
      c.metadata⟩ : CacheEntry) = callEntry md5 c from rfl, hins]
  by_cases hcase : rows.length + 1 ≤ limit
  · have h0 : (rows.length + 1) - limit = 0 := by omega
    rw [hsetraw, h0, List.drop_zero]
    have : prune_cache limit (rows ++ [callEntry md5 c]) = rows ++ [callEntry md5 c] := by
      unfold prune_cache
      rw [if_pos (by simpa using hcase)]
    rw [this]
    exact ⟨rfl, by simpa using hcase, hts2, hnd2⟩
  · have hiseq : rows.length = limit := by omega
    have h1 : (rows.length + 1) - limit = 1 := by omega
    have hlen2 : (rows ++ [callEntry md5 c]).length = limit + 1 := by simp [hiseq]
    have hprune : prune_cache limit (rows ++ [callEntry md5 c]) =
        (rows ++ [callEntry md5 c]).drop 1 := by
      unfold prune_cache
      rw [if_neg (by omega)]
      have hsort : List.insertionSort tsLe (rows ++ [callEntry md5 c]) =
          rows ++ [callEntry md5 c] :=
        List.Sorted.insertionSort_eq (hts2.imp (fun h => le_of_lt h))
      rw [hsort, hlen2]
      have : limit + 1 - limit = 1 := by omega
      rw [this]
      exact filter_not_in_take (rows ++ [callEntry md5 c]) 1 hnd2
    rw [hsetraw, hprune, h1]
    refine ⟨rfl, ?_, ?_, ?_⟩
    · rw [List.length_drop, hlen2]; omega
    · exact hts2.sublist (List.drop_sublist _ _)
    · rw [List.map_drop]
      exact hnd2.sublist (List.drop_sublist _ _)

/-- Folding a sequence of `set` calls with increasing timestamps and distinct
keys over a good store keeps exactly the newest `limit` rows. -/
lemma cache_setAll_good (md5 : String → String) (limit : Nat) :
    ∀ (calls : List SetCall) (rows : List CacheEntry),
      GoodStore limit rows →
      (∀ x ∈ rows, ∀ c ∈ calls, x.timestamp < c.now ∧ x.hash ≠ (callEntry md5 c).hash) →
      calls.Pairwise (fun a b => a.now < b.now) →
      calls.Pairwise (fun a b =>
        calculate_hash md5 a.prompt a.params ≠ calculate_hash md5 b.prompt b.params) →
      cache_setAll md5 limit calls rows =
        (rows ++ calls.map (callEntry md5)).drop ((rows.length + calls.length) - limit) := by
  intro calls
  induction calls with
  | nil =>
    intro rows hg _ _ _
    have h0 : rows.length - limit = 0 := by have := hg.1; omega
    simp [cache_setAll, h0]
  | cons c cs ih =>
    intro rows hg hfr hts hh
    have hf : ∀ x ∈ rows, x.timestamp < c.now ∧ x.hash ≠ (callEntry md5 c).hash :=
      fun x hx => hfr x hx c (List.mem_cons_self c cs)
    obtain ⟨hstep, hgood⟩ := cache_set_good md5 limit rows c hg hf
    have hfold : cache_setAll md5 limit (c :: cs) rows =
        cache_setAll md5 limit cs
          (cache_set md5 limit c.now c.prompt c.params c.response c.metadata rows) := rfl
    rw [hfold, hstep]
    have hfr2 : ∀ x ∈ (rows ++ [callEntry md5 c]).drop ((rows.length + 1) - limit),
        ∀ c2 ∈ cs, x.timestamp < c2.now ∧ x.hash ≠ (callEntry md5 c2).hash := by
      intro x hx c2 hc2
      have hx2 : x ∈ rows ++ [callEntry md5 c] := List.mem_of_mem_drop hx
      rw [List.mem_append] at hx2
      rcases hx2 with hx2 | hx2
      · exact hfr x hx2 c2 (List.mem_cons_of_mem c hc2)
      · rw [List.mem_singleton] at hx2
        subst hx2
        exact ⟨List.rel_of_pairwise_cons hts hc2, List.rel_of_pairwise_cons hh hc2⟩
    have ihres := ih ((rows ++ [callEntry md5 c]).drop ((rows.length + 1) - limit)) hgood hfr2
      (List.pairwise_cons.mp hts).2 (List.pairwise_cons.mp hh).2
    rw [ihres]
    have hlen1 : (rows.length + 1) - limit ≤ (rows ++ [callEntry md5 c]).length := by
      simp only [List.length_append, List.length_cons, List.length_nil]
      omega
    rw [← List.drop_append_of_le_length hlen1, List.drop_drop]
    have hassoc : (rows ++ [callEntry md5 c]) ++ cs.map (callEntry md5) =
        rows ++ (c :: cs).map (callEntry md5) := by
      simp
    rw [hassoc]
    congr 1
    have hle := hg.1
    simp only [List.length_drop, List.length_append, List.length_cons, List.length_nil]
    omega

/-- C3: for a sequence of `set` calls with increasing timestamps and distinct
derived keys, the table never exceeds `size_limit` after any `set`, and after
`size_limit + k` inserts exactly `size_limit` rows remain — the missing `k`
rows being exactly the `k` oldest-by-timestamp (the first `k` inserted). -/
theorem c3_size_eviction (md5 : String → String) (limit : Nat) (calls : List SetCall)
    (hts : calls.Pairwise (fun a b => a.now < b.now))
    (hh : calls.Pairwise (fun a b =>
      calculate_hash md5 a.prompt a.params ≠ calculate_hash md5 b.prompt b.params)) :
    (∀ n : Nat, (cache_setAll md5 limit (calls.take n) []).length ≤ limit) ∧
    ∀ k : Nat, calls.length = limit + k →
      cache_setAll md5 limit calls [] = (calls.map (callEntry md5)).drop k ∧
      (cache_setAll md5 limit calls []).length = limit := by
  have main : ∀ (cs : List SetCall), cs.Pairwise (fun a b => a.now < b.now) →
      cs.Pairwise (fun a b =>
        calculate_hash md5 a.prompt a.params ≠ calculate_hash md5 b.prompt b.params) →
      cache_setAll md5 limit cs [] =
        (cs.map (callEntry md5)).drop (cs.length - limit) := by
    intro cs h1 h2
    have hres := cache_setAll_good md5 limit cs []
      ⟨by simp, by simp, by simp⟩ (by intro x hx; simp at hx) h1 h2
    simpa using hres
  refine ⟨fun n => ?_, fun k hk => ?_⟩
  · rw [main _ (hts.sublist (List.take_sublist n calls)) (hh.sublist (List.take_sublist n calls))]
    rw [List.length_drop, List.length_map]
    omega
  · have hm := main calls hts hh
    refine ⟨?_, ?_⟩
    · rw [hm]
      congr 1
      omega
    · rw [hm, List.length_drop, List.length_map]
      omega

theorem c3_size_eviction_witness :
    cache_setAll id 1 [⟨0, "a", [], "r1", "m"⟩, ⟨1, "b", [], "r2", "m"⟩] [] =
      ([⟨0, "a", [], "r1", "m"⟩, ⟨1, "b", [], "r2", "m"⟩].map (callEntry id)).drop 1 ∧
    (cache_setAll id 1 [⟨0, "a", [], "r1", "m"⟩, ⟨1, "b", [], "r2", "m"⟩] []).length = 1 :=
  (c3_size_eviction id 1 [⟨0, "a", [], "r1", "m"⟩, ⟨1, "b", [], "r2", "m"⟩]
    (by decide) (by decide)).2 1 rfl

def c7Bad : Question :=
  ⟨"Hmm       ".data, [("A".data, "yes".data), ("B".data, "no".data)], some "A".data,
    none, none, none, none, none⟩

/-- C7 (counterexample): `c7Bad` (text of length 10 padded with blanks) fails
validation only for the missing `?`, yet after `fix_common_issues` the
stripped-and-extended text `"Hmm?"` is shorter than the minimum, so
re-validation still fails. -/
theorem c7_counterexample :
    (validate_question defaultConfig c7Bad).2 = [qmarkMsg] ∧
    (validate_question defaultConfig (fix_common_issues c7Bad).1).1 = false := by
  exact ⟨by decide, by decide⟩

/-- Two lists are different when they disagree on a prefix the left append can
cover. -/
lemma ne_of_take_ne (pre suf t : PStr) (n : Nat) (hn : n ≤ pre.length)
    (h : pre.take n ≠ t.take n) : pre ++ suf ≠ t := by
  intro he
  apply h
  rw [← he, List.take_append_of_le_length hn]

/-- Membership in `if c then [] else l` forces membership in `l`. -/
lemma mem_ite_nil_left {c : Prop} [Decidable c] {l : List PStr} {m : PStr}
    (h : m ∈ if c then ([] : List PStr) else l) : m ∈ l := by
  by_cases hc : c
  · rw [if_pos hc] at h
    exact absurd h (List.not_mem_nil m)
  · rwa [if_neg hc] at h

/-- Membership in `if c then l else []` forces membership in `l`. -/
lemma mem_ite_nil_right {c : Prop} [Decidable c] {l : List PStr} {m : PStr}
    (h : m ∈ if c then l else ([] : List PStr)) : m ∈ l := by
  by_cases hc : c
  · rwa [if_pos hc] at h
  · rw [if_neg hc] at h
    exact absurd h (List.not_mem_nil m)

/-- The error list of `validate_question` is the concatenation of its pieces. -/
lemma mem_validate_errs (cfg : ValidatorConfig) (q : Question) (m : PStr) :
    m ∈ (validate_question cfg q).2 ↔
      m ∈ errMissing q ∨ m ∈ errShort cfg q ∨ m ∈ errQmark q ∨ m ∈ errFew cfg q ∨
      m ∈ errMany cfg q ∨ m ∈ errKeys cfg q ∨ m ∈ errEmptyTexts q ∨ m ∈ errAnswer q := by
  simp only [validate_question, List.mem_append]
  tauto

lemma qmark_not_in_errMissing (q : Question) : qmarkMsg ∉ errMissing q := by
  intro hm
  unfold errMissing at hm
  rcases List.mem_append.mp hm with hm | hm
  · rcases List.mem_append.mp hm with hm | hm
    · exact absurd (List.mem_singleton.mp (mem_ite_nil_left hm)) (by decide)
    · exact absurd (List.mem_singleton.mp (mem_ite_nil_left hm)) (by decide)
  · exact absurd (List.mem_singleton.mp (mem_ite_nil_left hm)) (by decide)

lemma qmark_not_in_errShort (cfg : ValidatorConfig) (q : Question) :
    qmarkMsg ∉ errShort cfg q := by
  intro hm
  unfold errShort at hm
  have hthis := (List.mem_singleton.mp (mem_ite_nil_right hm)).symm
  simp only [List.append_assoc] at hthis
  refine absurd hthis (ne_of_take_ne _ _ _ 15 ?_ ?_) <;> decide

lemma qmark_not_in_errFew (cfg : ValidatorConfig) (q : Question) :
    qmarkMsg ∉ errFew cfg q := by
  intro hm
  unfold errFew at hm
  have hthis := (List.mem_singleton.mp (mem_ite_nil_right hm)).symm
  simp only [List.append_assoc] at hthis
  refine absurd hthis (ne_of_take_ne _ _ _ 1 ?_ ?_) <;> decide

lemma qmark_not_in_errMany (cfg : ValidatorConfig) (q : Question) :
    qmarkMsg ∉ errMany cfg q := by
  intro hm
  unfold errMany at hm
  have hthis := (List.mem_singleton.mp (mem_ite_nil_right hm)).symm
  simp only [List.append_assoc] at hthis
  refine absurd hthis (ne_of_take_ne _ _ _ 1 ?_ ?_) <;> decide

lemma qmark_not_in_errKeys (cfg : ValidatorConfig) (q : Question) :
    qmarkMsg ∉ errKeys cfg q := by
  intro hm
  unfold errKeys at hm
  have hm2 := mem_ite_nil_right hm
  rw [List.mem_filterMap] at hm2
  obtain ⟨k, _, hk⟩ := hm2
  by_cases hv : k ∈ valid_keys cfg
  · rw [if_pos hv] at hk
    exact Option.noConfusion hk
  · rw [if_neg hv] at hk
    have hthis := Option.some.inj hk
    refine absurd hthis (ne_of_take_ne _ _ _ 1 ?_ ?_) <;> decide

lemma qmark_not_in_errEmptyTexts (q : Question) : qmarkMsg ∉ errEmptyTexts q := by
  intro hm
  unfold errEmptyTexts at hm
  have hm2 := mem_ite_nil_right hm
  rw [List.mem_filterMap] at hm2
  obtain ⟨kv, _, hk⟩ := hm2
  by_cases hv : (!truthyS kv.2 || (stripP kv.2).isEmpty) = true
  · rw [if_pos hv] at hk
    have hthis := Option.some.inj hk
    refine absurd hthis (ne_of_take_ne _ _ _ 1 ?_ ?_) <;> decide
  · rw [if_neg hv] at hk
    exact Option.noConfusion hk

lemma qmark_not_in_errAnswer (q : Question) : qmarkMsg ∉ errAnswer q := by
  intro hm
  unfold errAnswer at hm
  have hm2 := mem_ite_nil_right hm
  cases hca : q.correct_answer with
  | none => rw [hca] at hm2; exact absurd hm2 (List.not_mem_nil _)
  | some ca =>
    rw [hca] at hm2
    have hthis := (List.mem_singleton.mp (mem_ite_nil_left hm2)).symm
    simp only [List.append_assoc] at hthis
    refine absurd hthis (ne_of_take_ne _ _ _ 1 ?_ ?_) <;> decide

lemma bool_true_of_not_false {b : Bool} (h : ¬ b = false) : b = true := by
  cases b
  · exact absurd rfl h
  · rfl

/-- `dictInsert` on an absent key appends. -/
lemma dictInsert_not_mem (d : List (PStr × PStr)) (k v : PStr)
    (h : ∀ p ∈ d, p.1 ≠ k) : dictInsert d k v = d ++ [(k, v)] := by
  have hc : d.any (fun p => decide (p.1 = k)) = false := by
    rw [List.any_eq_false]
    intro p hp
    simpa using h p hp
  unfold dictInsert
  rw [hc]
  simp

/-- Rebuilding an options dict whose keys are already upper-case and unique
reproduces it unchanged. -/
lemma foldl_fixOptStep_id :
    ∀ (l acc : List (PStr × PStr)) (fx : List PStr),
      l.Pairwise (fun a b => a.1 ≠ b.1) →
      (∀ kv ∈ l, kv.1.map Char.toUpper = kv.1) →
      (∀ kv ∈ l, ∀ p ∈ acc, p.1 ≠ kv.1) →
      (l.foldl fixOptStep (acc, fx)).1 = acc ++ l := by
  intro l
  induction l with
  | nil =>
    intro acc fx _ _ _
    simp
  | cons kv rest ih =>
    intro acc fx hpw hup hdisj
    rw [List.foldl_cons]
    have hnk : kv.1.map Char.toUpper = kv.1 := hup kv (List.mem_cons_self _ _)
    have h1 : (fixOptStep (acc, fx) kv).1 = acc ++ [kv] := by
      unfold fixOptStep
      simp only [hnk]
      rw [dictInsert_not_mem acc kv.1 kv.2
        (fun p hp => hdisj kv (List.mem_cons_self _ _) p hp)]
    have htail := ih (fixOptStep (acc, fx) kv).1 (fixOptStep (acc, fx) kv).2
      (List.pairwise_cons.mp hpw).2
      (fun kv2 hkv2 => hup kv2 (List.mem_cons_of_mem _ hkv2))
      (by
        intro kv2 hkv2 p hp
        rw [h1, List.mem_append] at hp
        rcases hp with hp | hp
        · exact hdisj kv2 (List.mem_cons_of_mem _ hkv2) p hp
        · rw [List.mem_singleton] at hp
          subst hp
          exact (List.pairwise_cons.mp hpw).1 kv2 hkv2)
    calc (rest.foldl fixOptStep (fixOptStep (acc, fx) kv)).1
        = (fixOptStep (acc, fx) kv).1 ++ rest := htail
      _ = (acc ++ [kv]) ++ rest := by rw [h1]
      _ = acc ++ kv :: rest := by simp

/-- Keys legal under the default configuration are single upper-case letters,
hence fixed by `upper()`. -/
lemma upper_of_valid (k : PStr) (h : k ∈ valid_keys defaultConfig) :
    k.map Char.toUpper = k := by
  rw [show valid_keys defaultConfig = [['A'], ['B'], ['C'], ['D'], ['E']] from rfl] at h
  simp only [List.mem_cons, List.mem_singleton, List.not_mem_nil, or_false] at h
  rcases h with rfl | rfl | rfl | rfl | rfl <;> decide

lemma dropWhile_append_singleton (p : Char → Bool) (c : Char) (hc : p c = false) :
    ∀ s : PStr, List.dropWhile p (s ++ [c]) = List.dropWhile p s ++ [c] := by
  intro s
  induction s with
  | nil => simp [List.dropWhile_cons, hc]
  | cons a s ih =>
    by_cases ha : p a = true
    · simp [List.dropWhile_cons, ha, ih]
    · simp [List.dropWhile_cons, ha]

/-- Stripping a text that ends in `?` leaves it ending in `?`. -/
lemma strip_append_qmark (s : PStr) :
    endsWithCh (stripP (s ++ "?".data)) '?' = true := by
  unfold stripP endsWithCh
  rw [show ("?".data : PStr) = ['?'] from rfl]
  rw [dropWhile_append_singleton isSpaceP '?' (by decide) s]
  rw [List.reverse_append]
  simp only [List.reverse_cons, List.reverse_nil, List.nil_append, List.singleton_append]
  rw [List.dropWhile_cons]
  simp only [List.reverse_reverse]
  rw [if_neg (by decide)]
  rfl

/-- A text extended with `?` is truthy. -/
lemma truthy_append_qmark (s : PStr) : truthyS (s ++ "?".data) = true := by
  unfold truthyS
  simp

/-- C7 (amended): for a Question whose only validation error is the missing
trailing `?`, and whose STRIPPED text plus the appended `?` still meets the
minimum length, `fix_common_issues` followed by `validate_question` yields
`is_valid = True` with no errors.  (The length proviso is forced by the
counterexample `c7_counterexample`: the fix strips the text, which can drop it
below the minimum.) -/
theorem c7_fix_roundtrip (q : Question)
    (hnd : q.options.Pairwise (fun a b => a.1 ≠ b.1))
    (herr : (validate_question defaultConfig q).2 = [qmarkMsg])
    (hlen : defaultConfig.min_question_length ≤ (stripP q.question_text).length + 1) :
    validate_question defaultConfig (fix_common_issues q).1 = (true, []) := by
  have hall : ∀ m ∈ (validate_question defaultConfig q).2, m = qmarkMsg := by
    rw [herr]
    intro m hm
    exact List.mem_singleton.mp hm
  have hqm_in : qmarkMsg ∈ (validate_question defaultConfig q).2 := by
    rw [herr]
    exact List.mem_singleton.mpr rfl
  have hqm : qmarkMsg ∈ errQmark q := by
    rcases (mem_validate_errs defaultConfig q qmarkMsg).mp hqm_in with
      h | h | h | h | h | h | h | h
    · exact absurd h (qmark_not_in_errMissing q)
    · exact absurd h (qmark_not_in_errShort _ q)
    · exact h
    · exact absurd h (qmark_not_in_errFew _ q)
    · exact absurd h (qmark_not_in_errMany _ q)
    · exact absurd h (qmark_not_in_errKeys _ q)
    · exact absurd h (qmark_not_in_errEmptyTexts q)
    · exact absurd h (qmark_not_in_errAnswer q)
  have hguard : (truthyS q.question_text && !(endsWithCh (stripP q.question_text) '?')) = true := by
    by_contra hg
    unfold errQmark at hqm
    rw [if_neg hg] at hqm
    exact absurd hqm (List.not_mem_nil _)
  obtain ⟨htr, hnend⟩ : truthyS q.question_text = true ∧
      endsWithCh (stripP q.question_text) '?' = false := by
    simpa using hguard
  have hopts : (!q.options.isEmpty) = true := by
    by_contra hb
    have hm : ("Missing required field: options".data : PStr) ∈ errMissing q := by
      unfold errMissing
      refine List.mem_append.mpr (Or.inl (List.mem_append.mpr (Or.inr ?_)))
      rw [if_neg hb]
      exact List.mem_singleton.mpr rfl
    have := hall _ ((mem_validate_errs defaultConfig q _).mpr (Or.inl hm))
    exact absurd this (by decide)
  have hca : truthyO q.correct_answer = true := by
    by_contra hb
    have hm : ("Missing required field: correct_answer".data : PStr) ∈ errMissing q := by
      unfold errMissing
      refine List.mem_append.mpr (Or.inr ?_)
      rw [if_neg hb]
      exact List.mem_singleton.mpr rfl
    have := hall _ ((mem_validate_errs defaultConfig q _).mpr (Or.inl hm))
    exact absurd this (by decide)
  have hfew : decide (q.options.length < defaultConfig.min_options) = false := by
    by_contra hb
    have hb2 := bool_true_of_not_false hb
    have hm : ("Too few options: ".data ++ natStr q.options.length ++ " (minimum ".data ++
        natStr defaultConfig.min_options ++ ")".data) ∈ errFew defaultConfig q := by
      unfold errFew
      rw [if_pos (by rw [hopts, hb2]; decide)]
      exact List.mem_singleton.mpr rfl
    have heq := hall _ ((mem_validate_errs defaultConfig q _).mpr
      (Or.inr (Or.inr (Or.inr (Or.inl hm)))))
    simp only [List.append_assoc] at heq
    refine absurd heq (ne_of_take_ne _ _ _ 1 ?_ ?_) <;> decide
  have hmany : decide (q.options.length > defaultConfig.max_options) = false := by
    by_contra hb
    have hb2 := bool_true_of_not_false hb
    have hm : ("Too many options: ".data ++ natStr q.options.length ++ " (maximum ".data ++
        natStr defaultConfig.max_options ++ ")".data) ∈ errMany defaultConfig q := by
      unfold errMany
      rw [if_pos (by rw [hopts, hb2]; decide)]
      exact List.mem_singleton.mpr rfl
    have heq := hall _ ((mem_validate_errs defaultConfig q _).mpr
      (Or.inr (Or.inr (Or.inr (Or.inr (Or.inl hm))))))
    simp only [List.append_assoc] at heq
    refine absurd heq (ne_of_take_ne _ _ _ 1 ?_ ?_) <;> decide
  have hkeys : ∀ k ∈ q.options.map (fun kv => kv.1), k ∈ valid_keys defaultConfig := by
    intro k hk
    by_contra hbad
    have hm : ("Invalid option key: ".data ++ k) ∈ errKeys defaultConfig q := by
      unfold errKeys
      rw [if_pos hopts, List.mem_filterMap]
      exact ⟨k, hk, by rw [if_neg hbad]⟩
    have heq := hall _ ((mem_validate_errs defaultConfig q _).mpr
      (Or.inr (Or.inr (Or.inr (Or.inr (Or.inr (Or.inl hm)))))))
    refine absurd heq (ne_of_take_ne _ _ _ 1 ?_ ?_) <;> decide
  have htexts : ∀ kv ∈ q.options, (!truthyS kv.2 || (stripP kv.2).isEmpty) = false := by
    intro kv hkv
    by_contra hb
    have hb2 := bool_true_of_not_false hb
    have hm : ("Empty text for option ".data ++ kv.1) ∈ errEmptyTexts q := by
      unfold errEmptyTexts
      rw [if_pos hopts, List.mem_filterMap]
      exact ⟨kv, hkv, by rw [if_pos hb2]⟩
    have heq := hall _ ((mem_validate_errs defaultConfig q _).mpr
      (Or.inr (Or.inr (Or.inr (Or.inr (Or.inr (Or.inr (Or.inl hm))))))))
    refine absurd heq (ne_of_take_ne _ _ _ 1 ?_ ?_) <;> decide
  obtain ⟨cav, hcav⟩ : ∃ c, q.correct_answer = some c := by
    cases hc : q.correct_answer with
    | none => rw [hc] at hca; exact absurd hca (by simp [truthyO])
    | some c => exact ⟨c, rfl⟩
  have hain : (q.options.map (fun kv => kv.1)).contains cav = true := by
    by_contra hb
    have hm : ("Answer ".data ++ sqCh ++ cav ++ sqCh ++ " not in options".data) ∈ errAnswer q := by
      unfold errAnswer
      rw [if_pos (by rw [hca, hopts]; decide)]
      simp only [hcav]
      rw [if_neg hb]
      exact List.mem_singleton.mpr rfl
    have heq := hall _ ((mem_validate_errs defaultConfig q _).mpr
      (Or.inr (Or.inr (Or.inr (Or.inr (Or.inr (Or.inr (Or.inr hm))))))))
    simp only [List.append_assoc] at heq
    refine absurd heq (ne_of_take_ne _ _ _ 1 ?_ ?_) <;> decide
  have hcav_mem : cav ∈ q.options.map (fun kv => kv.1) := by
    simpa using hain
  have hcaup : cav.map Char.toUpper = cav := upper_of_valid cav (hkeys cav hcav_mem)
  have hopts_eq : ∀ fx : List PStr, (q.options.foldl fixOptStep ([], fx)).1 = q.options := by
    intro fx
    have hres := foldl_fixOptStep_id q.options [] fx hnd
      (fun kv hkv => upper_of_valid _ (hkeys _ (List.mem_map_of_mem _ hkv)))
      (fun kv _ p hp => absurd hp (List.not_mem_nil p))
    simpa using hres
  have hneedCa : (match q.correct_answer with
      | some c => decide (c.map Char.toUpper ≠ c)
      | none => false) = false := by
    rw [hcav]
    simp [hcaup]
  -- the repaired question
  have hfixq : (fix_common_issues q).1 =
      { q with question_text := stripP q.question_text ++ "?".data } := by
    unfold fix_common_issues
    simp only [hguard, hopts, hca, hneedCa, Bool.and_false, Bool.true_and, if_true,
      Bool.false_eq_true, if_false, if_pos]
    rw [hopts_eq]
  rw [hfixq]
  have hQT : ({ q with question_text := stripP q.question_text ++ "?".data } :
      Question).question_text = stripP q.question_text ++ "?".data := rfl
  have hO : ({ q with question_text := stripP q.question_text ++ "?".data } :
      Question).options = q.options := rfl
  have hCA : ({ q with question_text := stripP q.question_text ++ "?".data } :
      Question).correct_answer = q.correct_answer := rfl
  have p1 : errMissing { q with question_text := stripP q.question_text ++ "?".data } = [] := by
    unfold errMissing
    rw [hQT, hO, hCA, if_pos (truthy_append_qmark _), if_pos hopts, if_pos hca]
    rfl
  have p2 : errShort defaultConfig
      { q with question_text := stripP q.question_text ++ "?".data } = [] := by
    unfold errShort
    rw [hQT]
    rw [if_neg]
    intro hcond
    have hdec : decide ((stripP q.question_text ++ "?".data).length <
        defaultConfig.min_question_length) = true := (Bool.and_eq_true _ _ ▸ hcond).2
    rw [decide_eq_true_eq] at hdec
    rw [List.length_append] at hdec
    revert hdec
    simp only [not_lt]
    simpa using hlen
  have p3 : errQmark { q with question_text := stripP q.question_text ++ "?".data } = [] := by
    unfold errQmark
    rw [hQT]
    rw [if_neg]
    intro hcond
    have hbad := (Bool.and_eq_true _ _ ▸ hcond).2
    rw [strip_append_qmark] at hbad
    simp at hbad
  have p4 : errFew defaultConfig
      { q with question_text := stripP q.question_text ++ "?".data } = [] := by
    unfold errFew
    rw [hO]
    rw [if_neg]
    intro hcond
    have hbad := (Bool.and_eq_true _ _ ▸ hcond).2
    rw [hfew] at hbad
    exact Bool.noConfusion hbad
  have p5 : errMany defaultConfig
      { q with question_text := stripP q.question_text ++ "?".data } = [] := by
    unfold errMany
    rw [hO]
    rw [if_neg]
    intro hcond
    have hbad := (Bool.and_eq_true _ _ ▸ hcond).2
    rw [hmany] at hbad
    exact Bool.noConfusion hbad
  have p6 : errKeys defaultConfig
      { q with question_text := stripP q.question_text ++ "?".data } = [] := by
    unfold errKeys
    rw [hO, if_pos hopts]
    exact List.filterMap_eq_nil.mpr (fun k hk => by rw [if_pos (hkeys k hk)])
  have p7 : errEmptyTexts { q with question_text := stripP q.question_text ++ "?".data } = [] := by
    unfold errEmptyTexts
    rw [hO, if_pos hopts]
    exact List.filterMap_eq_nil.mpr (fun kv hkv => by
      rw [if_neg (by simp [htexts kv hkv])])
  have p8 : errAnswer { q with question_text := stripP q.question_text ++ "?".data } = [] := by
    unfold errAnswer
    rw [hCA, hO, if_pos (by rw [hca, hopts]; decide)]
    simp only [hcav]
    rw [if_pos hain]
  simp only [validate_question, p1, p2, p3, p4, p5, p6, p7, p8]
  rfl

def c7Good : Question :=
  ⟨"What is La Paz".data, [("A".data, "a city".data), ("B".data, "a mountain".data)],
    some "A".data, none, none, none, none, none⟩

theorem c7_fix_roundtrip_witness :
    validate_question defaultConfig (fix_common_issues c7Good).1 = (true, []) :=
  c7_fix_roundtrip c7Good (by decide) (by decide) (by decide)
